import Mathlib

/-!
Verification of the resilience / traffic-control core of the Tawnia analytics
backend: the two-tier cache (`src/utils/cache.py`), the rate limiter
(`src/security/middleware.py`), the circuit breaker
(`src/utils/circuit_breaker.py`) and the security-event monitor
(`src/security/secure_logging.py`).

Modelling conventions:
* Python `time.time()` floats are modelled as rationals (`ℚ`); all the code
  ever does with them is subtract and compare, which is exact.
* Python `dict`s (insertion ordered, unique keys) are modelled as association
  lists: updating an existing key keeps its position, a new key is appended,
  matching CPython iteration order.  Key uniqueness (`Nodup` on the key list)
  is an invariant of the real `dict` and appears as a hypothesis where a
  proof needs it.
* Cached values are an arbitrary type parameter `α`; JSON (de)serialization
  in `FileCache` is value-faithful for the data the service stores and is
  not modelled.
* `asyncio` locks only serialize the bodies we model; each modelled operation
  is one atomic step.
-/

/-- Association-list lookup with CPython `dict` semantics: first (unique)
matching key. -/
def dictGet {κ β : Type} [DecidableEq κ] : List (κ × β) → κ → Option β
  | [], _ => none
  | (k', v') :: rest, k => if k' = k then some v' else dictGet rest k

/-- Association-list update: replace in place if the key is present
(keeping its position), otherwise append, as CPython `dict.__setitem__`. -/
def dictSet {κ β : Type} [DecidableEq κ] : List (κ × β) → κ → β → List (κ × β)
  | [], k, v => [(k, v)]
  | (k', v') :: rest, k, v =>
    if k' = k then (k', v) :: rest else (k', v') :: dictSet rest k v

/-- Association-list deletion of the (unique) entry for a key, as CPython
`dict.__delitem__`. -/
def dictDelete {κ β : Type} [DecidableEq κ] : List (κ × β) → κ → List (κ × β)
  | [], _ => []
  | (k', v') :: rest, k =>
    if k' = k then rest else (k', v') :: dictDelete rest k

theorem dictGet_dictSet_self {κ β : Type} [DecidableEq κ] (l : List (κ × β)) (k : κ) (v : β) :
    dictGet (dictSet l k v) k = some v := by
  induction l with
  | nil => simp [dictSet, dictGet]
  | cons p rest ih =>
    obtain ⟨k', v'⟩ := p
    by_cases h : k' = k <;> simp [dictSet, dictGet, h, ih]

theorem dictGet_dictSet_ne {κ β : Type} [DecidableEq κ] (l : List (κ × β)) (k k' : κ) (v : β)
    (h : k' ≠ k) : dictGet (dictSet l k v) k' = dictGet l k' := by
  induction l with
  | nil => simp [dictSet, dictGet, Ne.symm h]
  | cons p rest ih =>
    obtain ⟨k0, v0⟩ := p
    by_cases h0 : k0 = k
    · subst h0
      simp [dictSet, dictGet, Ne.symm h]
    · simp [dictSet, dictGet, h0, ih]

theorem dictGet_eq_none_of_not_mem {κ β : Type} [DecidableEq κ] (l : List (κ × β)) (k : κ)
    (h : k ∉ l.map Prod.fst) : dictGet l k = none := by
  induction l with
  | nil => simp [dictGet]
  | cons p rest ih =>
    obtain ⟨k', v'⟩ := p
    simp only [List.map_cons, List.mem_cons] at h
    push_neg at h
    simp [dictGet, Ne.symm h.1, ih h.2]

theorem dictGet_dictDelete_self {κ β : Type} [DecidableEq κ] (l : List (κ × β)) (k : κ)
    (hnd : (l.map Prod.fst).Nodup) : dictGet (dictDelete l k) k = none := by
  induction l with
  | nil => simp [dictDelete, dictGet]
  | cons p rest ih =>
    obtain ⟨k', v'⟩ := p
    simp only [List.map_cons, List.nodup_cons] at hnd
    by_cases h : k' = k
    · subst h
      simpa [dictDelete] using dictGet_eq_none_of_not_mem rest k' hnd.1
    · simp [dictDelete, dictGet, h, ih hnd.2]

theorem dictGet_dictDelete_ne {κ β : Type} [DecidableEq κ] (l : List (κ × β)) (k k' : κ)
    (h : k' ≠ k) : dictGet (dictDelete l k) k' = dictGet l k' := by
  induction l with
  | nil => simp [dictDelete]
  | cons p rest ih =>
    obtain ⟨k0, v0⟩ := p
    by_cases h0 : k0 = k
    · subst h0
      simp [dictDelete, dictGet, Ne.symm h]
    · simp [dictDelete, dictGet, h0, ih]

theorem dictDelete_keys_sublist {κ β : Type} [DecidableEq κ] (l : List (κ × β)) (k : κ) :
    ((dictDelete l k).map Prod.fst).Sublist (l.map Prod.fst) := by
  induction l with
  | nil => simp [dictDelete]
  | cons p rest ih =>
    obtain ⟨k', v'⟩ := p
    by_cases h : k' = k
    · simp [dictDelete, h]
    · simpa [dictDelete, h] using ih.cons₂ k'

theorem dictSet_keys_of_mem {κ β : Type} [DecidableEq κ] (l : List (κ × β)) (k : κ) (v : β)
    (h : k ∈ l.map Prod.fst) : (dictSet l k v).map Prod.fst = l.map Prod.fst := by
  induction l with
  | nil => simp at h
  | cons p rest ih =>
    obtain ⟨k', v'⟩ := p
    by_cases h0 : k' = k
    · simp [dictSet, h0]
    · simp only [List.map_cons, List.mem_cons] at h
      rcases h with h | h
      · exact absurd h.symm h0
      · simp [dictSet, h0, ih h]

theorem dictSet_keys_of_not_mem {κ β : Type} [DecidableEq κ] (l : List (κ × β)) (k : κ) (v : β)
    (h : k ∉ l.map Prod.fst) : (dictSet l k v).map Prod.fst = l.map Prod.fst ++ [k] := by
  induction l with
  | nil => simp [dictSet]
  | cons p rest ih =>
    obtain ⟨k', v'⟩ := p
    simp only [List.map_cons, List.mem_cons] at h
    push_neg at h
    simp [dictSet, Ne.symm h.1, ih h.2]

theorem dictSet_keys_nodup {κ β : Type} [DecidableEq κ] (l : List (κ × β)) (k : κ) (v : β)
    (hnd : (l.map Prod.fst).Nodup) : ((dictSet l k v).map Prod.fst).Nodup := by
  by_cases h : k ∈ l.map Prod.fst
  · rwa [dictSet_keys_of_mem l k v h]
  · rw [dictSet_keys_of_not_mem l k v h,  List.nodup_append]
    exact ⟨hnd, List.nodup_singleton k, fun a ha hb => h ((List.mem_singleton.mp hb) ▸ ha)⟩

/-- `CacheEntry` from `src/utils/cache.py`: a cached value with creation
time, optional TTL and access bookkeeping.  `createdAt`/`lastAccessed` are
the `time.time()` values at construction. -/
structure CacheEntry (α : Type) where
  value : α
  createdAt : ℚ
  ttl : Option ℚ
  accessCount : ℕ
  lastAccessed : ℚ
deriving DecidableEq

/-- `CacheEntry.__init__(value, ttl)` at wall-clock time `now`. -/
def CacheEntry.mkAt {α : Type} (value : α) (ttl : Option ℚ) (now : ℚ) : CacheEntry α :=
  ⟨value, now, ttl, 0, now⟩

/-- `CacheEntry.is_expired`: `ttl is not None` and `time.time() - created_at > ttl`. -/
def CacheEntry.isExpired {α : Type} (e : CacheEntry α) (now : ℚ) : Bool :=
  match e.ttl with
  | none => false
  | some t => decide (now - e.createdAt > t)

/-- `CacheEntry.access`: bump `access_count`, refresh `last_accessed`,
return the value together with the updated entry. -/
def CacheEntry.access {α : Type} (e : CacheEntry α) (now : ℚ) : α × CacheEntry α :=
  (e.value, { e with accessCount := e.accessCount + 1, lastAccessed := now })

/-- `MemoryCache` from `src/utils/cache.py`: bounded in-memory store with
TTL and LRU eviction.  `cache` is the insertion-ordered Python dict. -/
structure MemoryCache (α : Type) where
  maxSize : ℕ
  defaultTtl : Option ℚ
  cache : List (String × CacheEntry α)
deriving DecidableEq

/-- The `min(self.cache.keys(), key=lambda k: self.cache[k].last_accessed)`
argmin: CPython `min` keeps the first minimum in iteration order, so a later
entry replaces the running best only when strictly smaller. -/
def lruKeyAux {α : Type} (k : String) (t : ℚ) : List (String × CacheEntry α) → String
  | [] => k
  | (k', e') :: rest =>
    if e'.lastAccessed < t then lruKeyAux k' e'.lastAccessed rest else lruKeyAux k t rest

/-- `MemoryCache._evict_lru`: no-op on an empty dict, otherwise delete the
entry whose `last_accessed` is oldest. -/
def MemoryCache.evictLRU {α : Type} (mc : MemoryCache α) : MemoryCache α :=
  match mc.cache with
  | [] => mc
  | (k, e) :: rest =>
    { mc with cache := dictDelete ((k, e) :: rest) (lruKeyAux k e.lastAccessed rest) }

/-- The effective TTL used by `MemoryCache.set`: `if ttl is None: ttl = self.default_ttl`. -/
def MemoryCache.effectiveTtl {α : Type} (mc : MemoryCache α) (ttl : Option ℚ) : Option ℚ :=
  match ttl with
  | none => mc.defaultTtl
  | some t => some t

/-- `MemoryCache.set` at wall-clock time `now`: evict the LRU entry when the
dict is at capacity and the key is new, then store a fresh entry. -/
def MemoryCache.set {α : Type} (mc : MemoryCache α) (now : ℚ) (key : String) (value : α)
    (ttl : Option ℚ) : MemoryCache α :=
  let t := mc.effectiveTtl ttl
  let mc1 :=
    if mc.maxSize ≤ mc.cache.length ∧ (dictGet mc.cache key).isNone = true
    then mc.evictLRU else mc
  { mc1 with cache := dictSet mc1.cache key (CacheEntry.mkAt value t now) }

/-- `MemoryCache.get` at wall-clock time `now`: miss on absence; delete and
miss on an expired entry; otherwise `entry.access()`. -/
def MemoryCache.get {α : Type} (mc : MemoryCache α) (now : ℚ) (key : String) :
    Option α × MemoryCache α :=
  match dictGet mc.cache key with
  | none => (none, mc)
  | some e =>
    if e.isExpired now
    then (none, { mc with cache := dictDelete mc.cache key })
    else
      let p := e.access now
      (some p.1, { mc with cache := dictSet mc.cache key p.2 })

/-- `MemoryCache.delete`. -/
def MemoryCache.delete {α : Type} (mc : MemoryCache α) (key : String) :
    Bool × MemoryCache α :=
  match dictGet mc.cache key with
  | none => (false, mc)
  | some _ => (true, { mc with cache := dictDelete mc.cache key })

theorem lruKeyAux_spec {α : Type} (rest : List (String × CacheEntry α)) (k : String) (t : ℚ) :
    (lruKeyAux k t rest = k ∧ ∀ p ∈ rest, t ≤ p.2.lastAccessed)
    ∨ (∃ e, (lruKeyAux k t rest, e) ∈ rest ∧ e.lastAccessed ≤ t ∧
        ∀ p ∈ rest, e.lastAccessed ≤ p.2.lastAccessed) := by
  induction rest generalizing k t with
  | nil =>
    left
    simp [lruKeyAux]
  | cons q rest ih =>
    obtain ⟨k', e'⟩ := q
    by_cases h : e'.lastAccessed < t
    · simp only [lruKeyAux, if_pos h]
      rcases ih k' e'.lastAccessed with ⟨heq, hall⟩ | ⟨e2, hmem, hle, hall⟩
      · right
        refine ⟨e', ?_, le_of_lt h, ?_⟩
        · simp [heq]
        · intro p hp
          rcases List.mem_cons.mp hp with hp | hp
          · simp [hp]
          · exact hall p hp
      · right
        refine ⟨e2, List.mem_cons_of_mem _ hmem, hle.trans (le_of_lt h), ?_⟩
        intro p hp
        rcases List.mem_cons.mp hp with hp | hp
        · simpa [hp] using hle
        · exact hall p hp
    · push_neg at h
      simp only [lruKeyAux, if_neg (not_lt.mpr h)]
      rcases ih k t with ⟨heq, hall⟩ | ⟨e2, hmem, hle, hall⟩
      · left
        refine ⟨heq, ?_⟩
        intro p hp
        rcases List.mem_cons.mp hp with hp | hp
        · simpa [hp] using h
        · exact hall p hp
      · right
        refine ⟨e2, List.mem_cons_of_mem _ hmem, hle, ?_⟩
        intro p hp
        rcases List.mem_cons.mp hp with hp | hp
        · simpa [hp] using hle.trans h
        · exact hall p hp

theorem evictLRU_keys_nodup {α : Type} (mc : MemoryCache α)
    (hnd : (mc.cache.map Prod.fst).Nodup) :
    ((mc.evictLRU).cache.map Prod.fst).Nodup := by
  unfold MemoryCache.evictLRU
  rcases hc : mc.cache with _ | ⟨⟨k, e⟩, rest⟩
  · simp [hc]
  · rw [hc] at hnd
    exact (dictDelete_keys_sublist _ _).nodup hnd

theorem memSet_keys_nodup {α : Type} (mc : MemoryCache α) (now : ℚ) (key : String)
    (v : α) (ttl : Option ℚ) (hnd : (mc.cache.map Prod.fst).Nodup) :
    ((mc.set now key v ttl).cache.map Prod.fst).Nodup := by
  unfold MemoryCache.set
  by_cases h : mc.maxSize ≤ mc.cache.length ∧ (dictGet mc.cache key).isNone = true
  · simp only [if_pos h]
    exact dictSet_keys_nodup _ _ _ (evictLRU_keys_nodup mc hnd)
  · simp only [if_neg h]
    exact dictSet_keys_nodup _ _ _ hnd

/-- C6: for `MemoryCache(max_size=2)` the sequence `set(a)`, `set(b)`,
`get(a)`, `set(c)` evicts exactly `b` (oldest `last_accessed`), after which
`a` and `c` are both retrievable; in general `set` evicts only when the
cache is at capacity and the key is new, and the evicted entry is the one
with the oldest `last_accessed` (access recency, not insertion order). -/
theorem memoryCache_lru_eviction :
    (let s4 :=
      ((((⟨2, none, []⟩ : MemoryCache ℕ).set 0 "a" 10 none).set 1 "b" 20 none).get
          2 "a").2.set 3 "c" 30 none
     dictGet s4.cache "b" = none ∧ (s4.get 4 "a").1 = some 10 ∧ (s4.get 4 "c").1 = some 30)
    ∧ (∀ (α : Type) (mc : MemoryCache α) (now : ℚ) (key : String) (v : α) (ttl : Option ℚ),
        (mc.cache.length < mc.maxSize ∨ (dictGet mc.cache key).isSome = true) →
        ∀ k', dictGet (mc.set now key v ttl).cache k' =
          if k' = key then some (CacheEntry.mkAt v (mc.effectiveTtl ttl) now)
          else dictGet mc.cache k')
    ∧ (∀ (α : Type) (mc : MemoryCache α) (now : ℚ) (key : String) (v : α) (ttl : Option ℚ),
        mc.maxSize ≤ mc.cache.length → dictGet mc.cache key = none → mc.cache ≠ [] →
        ∃ kl el, (kl, el) ∈ mc.cache ∧
          (∀ p ∈ mc.cache, el.lastAccessed ≤ p.2.lastAccessed) ∧
          (mc.set now key v ttl).cache =
            dictSet (dictDelete mc.cache kl) key
              (CacheEntry.mkAt v (mc.effectiveTtl ttl) now)) := by
  refine ⟨by decide, ?_, ?_⟩
  · intro α mc now key v ttl hno k'
    have hcond : ¬(mc.maxSize ≤ mc.cache.length ∧ (dictGet mc.cache key).isNone = true) := by
      rcases hno with h | h
      · exact fun hc => absurd hc.1 (not_le.mpr h)
      · exact fun hc => by simp [Option.isNone_iff_eq_none.mp hc.2] at h
    unfold MemoryCache.set
    simp only [if_neg hcond]
    by_cases hk : k' = key
    · subst hk
      simp [dictGet_dictSet_self]
    · simp [dictGet_dictSet_ne _ _ _ _ hk, hk]
  · intro α mc now key v ttl hcap hnew hne
    have hcond : mc.maxSize ≤ mc.cache.length ∧ (dictGet mc.cache key).isNone = true := by
      exact ⟨hcap, by simp [hnew]⟩
    rcases hc : mc.cache with _ | ⟨⟨k, e⟩, rest⟩
    · exact absurd hc hne
    · have hspec := lruKeyAux_spec rest k e.lastAccessed
      rcases hspec with ⟨heq, hall⟩ | ⟨e2, hmem, hle, hall⟩
      · refine ⟨lruKeyAux k e.lastAccessed rest, e, ?_, ?_, ?_⟩
        · rw [heq]
          exact List.mem_cons_self _ _
        · intro p hp
          rcases List.mem_cons.mp hp with hp | hp
          · simp [hp]
          · exact hall p hp
        · unfold MemoryCache.set
          simp only [if_pos hcond]
          unfold MemoryCache.evictLRU
          rw [hc]
      · refine ⟨lruKeyAux k e.lastAccessed rest, e2, ?_, ?_, ?_⟩
        · exact List.mem_cons_of_mem _ hmem
        · intro p hp
          rcases List.mem_cons.mp hp with hp | hp
          · simpa [hp] using hle
          · exact hall p hp
        · unfold MemoryCache.set
          simp only [if_pos hcond]
          unfold MemoryCache.evictLRU
          rw [hc]

/-- Witness for C6: a concrete instantiation of the two quantified clauses
(no eviction below capacity; LRU eviction at capacity). -/
theorem memoryCache_lru_eviction_witness :
    (dictGet ((⟨2, none, [("x", CacheEntry.mkAt 5 none 0)]⟩ : MemoryCache ℕ).set
        1 "x" 6 none).cache "x" =
      if "x" = "x" then
        some (CacheEntry.mkAt 6 ((⟨2, none, [("x", CacheEntry.mkAt 5 none 0)]⟩ :
          MemoryCache ℕ).effectiveTtl none) 1)
      else dictGet [("x", CacheEntry.mkAt (5 : ℕ) none 0)] "x")
    ∧ (∃ kl el, (kl, el) ∈ [("x", CacheEntry.mkAt (5 : ℕ) none 0)] ∧
        (∀ p ∈ [("x", CacheEntry.mkAt (5 : ℕ) none 0)], el.lastAccessed ≤ p.2.lastAccessed) ∧
        ((⟨1, none, [("x", CacheEntry.mkAt 5 none 0)]⟩ : MemoryCache ℕ).set 1 "y" 6 none).cache =
          dictSet (dictDelete [("x", CacheEntry.mkAt 5 none 0)] kl) "y"
            (CacheEntry.mkAt 6 ((⟨1, none, [("x", CacheEntry.mkAt 5 none 0)]⟩ :
              MemoryCache ℕ).effectiveTtl none) 1)) := by
  refine ⟨?_, ?_⟩
  · exact memoryCache_lru_eviction.2.1 ℕ ⟨2, none, [("x", CacheEntry.mkAt 5 none 0)]⟩
      1 "x" 6 none (by decide) "x"
  · exact memoryCache_lru_eviction.2.2 ℕ ⟨1, none, [("x", CacheEntry.mkAt 5 none 0)]⟩
      1 "y" 6 none (by decide) (by decide) (by decide)

theorem memGet_present {α : Type} (mc : MemoryCache α) (now : ℚ) (key : String)
    (e : CacheEntry α) (h : dictGet mc.cache key = some e) :
    mc.get now key =
      if e.isExpired now
      then (none, { mc with cache := dictDelete mc.cache key })
      else (some e.value, { mc with cache := dictSet mc.cache key (e.access now).2 }) := by
  unfold MemoryCache.get
  rw [h]
  by_cases hx : e.isExpired now <;> simp [hx, CacheEntry.access]

theorem memSet_cache_get_self {α : Type} (mc : MemoryCache α) (now : ℚ) (key : String)
    (v : α) (ttl : Option ℚ) :
    dictGet (mc.set now key v ttl).cache key
      = some (CacheEntry.mkAt v (mc.effectiveTtl ttl) now) := by
  unfold MemoryCache.set
  by_cases h : mc.maxSize ≤ mc.cache.length ∧ (dictGet mc.cache key).isNone = true <;>
    simp [h, dictGet_dictSet_self]

/-- C8: `set(k, v)` (with the cache's default TTL) followed immediately by
`get(k)` returns `v`; once more than the default TTL has elapsed since the
entry's creation, `get(k)` misses and removes the entry; and an entry is
expired exactly when its TTL is set and `now - created_at > ttl`. -/
theorem memoryCache_set_get_ttl_expiry (α : Type) (mc : MemoryCache α) (key : String)
    (v : α) (now now' T : ℚ) (hnd : (mc.cache.map Prod.fst).Nodup) :
    ((∀ u, mc.defaultTtl = some u → 0 ≤ u) →
      ((mc.set now key v none).get now key).1 = some v)
    ∧ (mc.defaultTtl = some T → now' - now > T →
        ((mc.set now key v none).get now' key).1 = none
        ∧ dictGet ((mc.set now key v none).get now' key).2.cache key = none)
    ∧ (∀ e : CacheEntry α, e.isExpired now = true ↔
        ∃ u, e.ttl = some u ∧ now - e.createdAt > u) := by
  have hget : dictGet (mc.set now key v none).cache key
      = some (CacheEntry.mkAt v mc.defaultTtl now) :=
    memSet_cache_get_self mc now key v none
  refine ⟨?_, ?_, ?_⟩
  · intro hT
    have hexp : (CacheEntry.mkAt v (mc.defaultTtl) now).isExpired now = false := by
      rcases h : mc.defaultTtl with _ | u
      · simp [CacheEntry.isExpired, CacheEntry.mkAt, h]
      · simp [CacheEntry.isExpired, CacheEntry.mkAt, h]
        linarith [hT u h]
    rw [memGet_present _ _ _ _ hget]
    simp only [hexp, Bool.false_eq_true, if_false]
    rfl
  · intro hdt hgt
    have hexp : (CacheEntry.mkAt v (mc.defaultTtl) now).isExpired now' = true := by
      simp [CacheEntry.isExpired, CacheEntry.mkAt, hdt, hgt]
    constructor
    · rw [memGet_present _ _ _ _ hget]
      simp [hexp]
    · rw [memGet_present _ _ _ _ hget]
      simp only [hexp, if_true]
      exact dictGet_dictDelete_self _ _ (memSet_keys_nodup mc now key v none hnd)
  · intro e
    rcases h : e.ttl with _ | u <;> simp [CacheEntry.isExpired, h]

/-- Witness for C8: a `MemoryCache ℕ` with `max_size = 2` and default TTL 10:
an immediate `get` after `set` hits, and a `get` 11 seconds later misses and
removes the entry. -/
theorem memoryCache_set_get_ttl_expiry_witness :
    (((⟨2, some 10, []⟩ : MemoryCache ℕ).set 0 "k" 7 none).get 0 "k").1 = some 7
    ∧ ((((⟨2, some 10, []⟩ : MemoryCache ℕ).set 0 "k" 7 none).get 11 "k").1 = none
        ∧ dictGet ((((⟨2, some 10, []⟩ : MemoryCache ℕ).set 0 "k" 7 none).get
            11 "k").2.cache) "k" = none) := by
  have h := memoryCache_set_get_ttl_expiry ℕ ⟨2, some 10, []⟩ "k" 7 0 11 10 (by decide)
  refine ⟨h.1 ?_, h.2.1 rfl (by norm_num)⟩
  intro u hu
  injection hu with hu'
  rw [← hu']
  norm_num

/-- Truncation to a 32-bit word, the implicit wrap-around of every SHA-256
word operation. -/
def w32 (n : ℕ) : ℕ := n % 4294967296

/-- 32-bit right rotation. -/
def rotr32 (n x : ℕ) : ℕ := w32 ((x >>> n) ||| (x <<< (32 - n)))

def sha256BigSigma0 (x : ℕ) : ℕ := ((rotr32 2 x).xor (rotr32 13 x)).xor (rotr32 22 x)

def sha256BigSigma1 (x : ℕ) : ℕ := ((rotr32 6 x).xor (rotr32 11 x)).xor (rotr32 25 x)

def sha256SmallSigma0 (x : ℕ) : ℕ := ((rotr32 7 x).xor (rotr32 18 x)).xor (x >>> 3)

def sha256SmallSigma1 (x : ℕ) : ℕ := ((rotr32 17 x).xor (rotr32 19 x)).xor (x >>> 10)

def sha256Ch (x y z : ℕ) : ℕ := (x.land y).xor ((x.xor 4294967295).land z)

def sha256Maj (x y z : ℕ) : ℕ := ((x.land y).xor (x.land z)).xor (y.land z)

/-- The FIPS 180-4 SHA-256 round constants. -/
def sha256K : List ℕ :=
  [1116352408, 1899447441, 3049323471, 3921009573, 961987163, 1508970993, 2453635748, 2870763221,
   3624381080, 310598401, 607225278, 1426881987, 1925078388, 2162078206, 2614888103, 3248222580,
   3835390401, 4022224774, 264347078, 604807628, 770255983, 1249150122, 1555081692, 1996064986,
   2554220882, 2821834349, 2952996808, 3210313671, 3336571891, 3584528711, 113926993, 338241895,
   666307205, 773529912, 1294757372, 1396182291, 1695183700, 1986661051, 2177026350, 2456956037,
   2730485921, 2820302411, 3259730800, 3345764771, 3516065817, 3600352804, 4094571909, 275423344,
   430227734, 506948616, 659060556, 883997877, 958139571, 1322822218, 1537002063, 1747873779,
   1955562222, 2024104815, 2227730452, 2361852424, 2428436474, 2756734187, 3204031479, 3329325298]

/-- The eight SHA-256 working variables. -/
structure Sha256State where
  a : ℕ
  b : ℕ
  c : ℕ
  d : ℕ
  e : ℕ
  f : ℕ
  g : ℕ
  h : ℕ

/-- The FIPS 180-4 SHA-256 initial hash value. -/
def sha256Init : Sha256State :=
  ⟨1779033703, 3144134277, 1013904242, 2773480762, 1359893119, 2600822924, 528734635, 1541459225⟩

/-- One SHA-256 compression round with round constant and schedule word `kw`. -/
def sha256Round (s : Sha256State) (kw : ℕ × ℕ) : Sha256State :=
  let t1 := w32 (s.h + sha256BigSigma1 s.e + sha256Ch s.e s.f s.g + kw.1 + kw.2)
  let t2 := w32 (sha256BigSigma0 s.a + sha256Maj s.a s.b s.c)
  ⟨w32 (t1 + t2), s.a, s.b, s.c, w32 (s.d + t1), s.e, s.f, s.g⟩

/-- The 16 big-endian 32-bit words of one 64-byte block. -/
def sha256BlockWords (b : List ℕ) : List ℕ :=
  (List.range 16).map (fun i =>
    b.getD (4 * i) 0 * 16777216 + b.getD (4 * i + 1) 0 * 65536 +
      b.getD (4 * i + 2) 0 * 256 + b.getD (4 * i + 3) 0)

/-- Append the next message-schedule word. -/
def sha256ScheduleStep (ws : List ℕ) : List ℕ :=
  ws ++ [w32 (sha256SmallSigma1 (ws.getD (ws.length - 2) 0) + ws.getD (ws.length - 7) 0 +
    sha256SmallSigma0 (ws.getD (ws.length - 15) 0) + ws.getD (ws.length - 16) 0)]

/-- The 64-word message schedule of a block. -/
def sha256Schedule (b : List ℕ) : List ℕ := sha256ScheduleStep^[48] (sha256BlockWords b)

/-- Compress one 64-byte block into the running hash value. -/
def sha256ProcessBlock (hv : Sha256State) (b : List ℕ) : Sha256State :=
  let s := (sha256K.zip (sha256Schedule b)).foldl sha256Round hv
  ⟨w32 (hv.a + s.a), w32 (hv.b + s.b), w32 (hv.c + s.c), w32 (hv.d + s.d),
   w32 (hv.e + s.e), w32 (hv.f + s.f), w32 (hv.g + s.g), w32 (hv.h + s.h)⟩

/-- SHA-256 padding: `0x80`, zeros to 56 mod 64, then the 8-byte big-endian
bit length. -/
def sha256Pad (msg : List ℕ) : List ℕ :=
  msg ++ [128] ++ List.replicate ((120 - (msg.length + 1) % 64) % 64) 0 ++
    (List.range 8).map (fun i => ((8 * msg.length) >>> (8 * (7 - i))) % 256)

/-- Split a padded message into 64-byte blocks. -/
def sha256Blocks (l : List ℕ) : List (List ℕ) :=
  if h : l = [] then [] else l.take 64 :: sha256Blocks (l.drop 64)
termination_by l.length
decreasing_by
  simp only [List.length_drop]
  have := List.length_pos.mpr h
  omega

/-- The eight 32-bit words of the SHA-256 digest of a byte string. -/
def sha256Words (msg : List ℕ) : List ℕ :=
  let s := (sha256Blocks (sha256Pad msg)).foldl sha256ProcessBlock sha256Init
  [s.a, s.b, s.c, s.d, s.e, s.f, s.g, s.h]

/-- The sixteen lowercase hex digits, in order. -/
def hexDigits : List Char := "0123456789abcdef".toList

def hexChar (n : ℕ) : Char := hexDigits.getD n '0'

/-- Eight hex characters of one 32-bit word, most significant nibble first. -/
def wordToHex (wd : ℕ) : List Char :=
  (List.range 8).map (fun i => hexChar (wd / 16 ^ (7 - i) % 16))

/-- `hashlib.sha256(bytes).hexdigest()`: 64 lowercase hex characters. -/
def sha256hex (msg : List ℕ) : List Char := ((sha256Words msg).map wordToHex).flatten

/-- UTF-8 encoding of one character (`str.encode()`), as byte values. -/
def utf8EncodeChar (c : Char) : List ℕ :=
  let n := c.toNat
  if n < 128 then [n]
  else if n < 2048 then [192 + n / 64, 128 + n % 64]
  else if n < 65536 then [224 + n / 4096, 128 + n / 64 % 64, 128 + n % 64]
  else [240 + n / 262144, 128 + n / 4096 % 64, 128 + n / 64 % 64, 128 + n % 64]

/-- UTF-8 encoding of a character sequence. -/
def utf8Encode (cs : List Char) : List ℕ := (cs.map utf8EncodeChar).flatten

/-- The character class kept by `_get_cache_path`'s sanitization:
`c.isalnum() or c in '_-'`.  Python's `isalnum` is Unicode-aware;
`Char.isAlphanum` models its ASCII restriction, which is exact for every key
the claims exercise (cache keys built from hex digests and ASCII names). -/
def isSafeKeyChar (c : Char) : Bool := c.isAlphanum || c == '_' || c == '-'

/-- `''.join(c for c in key if c.isalnum() or c in '_-')[:100]`. -/
def sanitizeRaw (key : String) : List Char := (key.toList.filter isSafeKeyChar).take 100

/-- The sanitized key: the filtered/truncated key, or `'default'` when that
is empty. -/
def sanitizeKey (key : String) : List Char :=
  let s := sanitizeRaw key
  if s = [] then "default".toList else s

/-- The on-disk file name chosen by `_get_cache_path`:
`f"{sha256(safe_key.encode()).hexdigest()}.cache"`. -/
def cacheFileName (key : String) : List Char :=
  sha256hex (utf8Encode (sanitizeKey key)) ++ ".cache".toList

/-- Split a relative path string on the POSIX separator, as `pathlib` does
when a string is joined onto a `Path`. -/
def splitOnSep : List Char → List (List Char)
  | [] => [[]]
  | c :: rest =>
    if c = '/' then [] :: splitOnSep rest
    else
      match splitOnSep rest with
      | [] => [[c]]
      | g :: gs => (c :: g) :: gs

/-- `dir / s` of `pathlib` for a relative string `s`, on path component
lists. -/
def pathJoin (dir : List (List Char)) (s : List Char) : List (List Char) :=
  dir ++ splitOnSep s

/-- The effect of `Path.resolve()` on `.`, `..` and empty components
(symlinks aside): left-to-right normalization. -/
def resolveComps (p : List (List Char)) : List (List Char) :=
  p.foldl
    (fun acc c =>
      if c = [] ∨ c = ['.'] then acc
      else if c = ['.', '.'] then acc.dropLast
      else acc ++ [c]) []

/-- `FileCache._get_cache_path`: the cache-root components joined with the
hash-derived file name. -/
def getCachePath (cacheDir : List (List Char)) (key : String) : List (List Char) :=
  pathJoin cacheDir (cacheFileName key)

/-- The serialized record `{'value': .., 'created_at': .., 'ttl': ..}`
stored in one cache file. -/
structure FileEntry (α : Type) where
  value : α
  createdAt : ℚ
  ttl : Option ℚ
deriving DecidableEq

/-- `FileCache` from `src/utils/cache.py`: one file per entry under the
cache root, keyed by the hash-derived file name. -/
structure FileCache (α : Type) where
  defaultTtl : Option ℚ
  store : List (List Char × FileEntry α)
deriving DecidableEq

/-- `FileCache.set` at wall-clock time `now`: write the record to the file
named by `_get_cache_path(key)` (default TTL applied when `ttl is None`). -/
def FileCache.set {α : Type} (fc : FileCache α) (now : ℚ) (key : String) (value : α)
    (ttl : Option ℚ) : FileCache α :=
  let t := match ttl with | none => fc.defaultTtl | some u => some u
  { fc with store := dictSet fc.store (cacheFileName key) ⟨value, now, t⟩ }

/-- `FileCache.get` at wall-clock time `now`: miss when the file is absent;
rebuild the `CacheEntry` (its `created_at` overwritten from the record),
unlink and miss when expired, else return `entry.access()`. -/
def FileCache.get {α : Type} (fc : FileCache α) (now : ℚ) (key : String) :
    Option α × FileCache α :=
  match dictGet fc.store (cacheFileName key) with
  | none => (none, fc)
  | some ed =>
    let e : CacheEntry α := { CacheEntry.mkAt ed.value ed.ttl now with createdAt := ed.createdAt }
    if e.isExpired now
    then (none, { fc with store := dictDelete fc.store (cacheFileName key) })
    else (some (e.access now).1, fc)

/-- `FileCache.delete`. -/
def FileCache.delete {α : Type} (fc : FileCache α) (key : String) : Bool × FileCache α :=
  match dictGet fc.store (cacheFileName key) with
  | none => (false, fc)
  | some _ => (true, { fc with store := dictDelete fc.store (cacheFileName key) })

/-- `MultiLevelCache` from `src/utils/cache.py`. -/
structure MultiLevelCache (α : Type) where
  memoryCache : MemoryCache α
  fileCache : FileCache α

/-- `MultiLevelCache.get`: memory tier first; on a memory miss consult the
file tier and, on a file hit, promote the value into the memory tier
(`memory_cache.set(key, value)`, default TTL) before returning it. -/
def MultiLevelCache.get {α : Type} (mlc : MultiLevelCache α) (now : ℚ) (key : String) :
    Option α × MultiLevelCache α :=
  let m := mlc.memoryCache.get now key
  match m.1 with
  | some v => (some v, { mlc with memoryCache := m.2 })
  | none =>
    let f := mlc.fileCache.get now key
    match f.1 with
    | some v => (some v, { memoryCache := m.2.set now key v none, fileCache := f.2 })
    | none => (none, { memoryCache := m.2, fileCache := f.2 })

/-- `MultiLevelCache.set`: write both tiers (independently). -/
def MultiLevelCache.set {α : Type} (mlc : MultiLevelCache α) (now : ℚ) (key : String)
    (value : α) (memoryTtl fileTtl : Option ℚ) : MultiLevelCache α :=
  { memoryCache := mlc.memoryCache.set now key value memoryTtl,
    fileCache := mlc.fileCache.set now key value fileTtl }

theorem hexChar_mem (n : ℕ) : hexChar n ∈ hexDigits := by
  unfold hexChar
  by_cases h : n < hexDigits.length
  · rw [List.getD_eq_getElem hexDigits '0' h]
    exact List.getElem_mem h
  · rw [List.getD_eq_default hexDigits '0' (not_lt.mp h)]
    decide

theorem sha256hex_mem_hexDigits (msg : List ℕ) (c : Char) (hc : c ∈ sha256hex msg) :
    c ∈ hexDigits := by
  unfold sha256hex at hc
  rcases List.mem_flatten.mp hc with ⟨l, hl, hcl⟩
  rcases List.mem_map.mp hl with ⟨wd, _, rfl⟩
  rcases List.mem_map.mp hcl with ⟨i, _, rfl⟩
  exact hexChar_mem _

theorem sha256hex_length (msg : List ℕ) : (sha256hex msg).length = 64 := by
  simp [sha256hex, sha256Words, wordToHex]

theorem cacheFileName_length (key : String) : (cacheFileName key).length = 70 := by
  simp [cacheFileName, sha256hex_length]

theorem sep_not_mem_cacheFileName (key : String) : '/' ∉ cacheFileName key := by
  intro h
  rcases List.mem_append.mp h with h | h
  · have := sha256hex_mem_hexDigits _ _ h
    revert this
    decide
  · revert h
    decide

theorem splitOnSep_eq_single (cs : List Char) (h : '/' ∉ cs) : splitOnSep cs = [cs] := by
  induction cs with
  | nil => rfl
  | cons c rest ih =>
    simp only [List.mem_cons] at h
    push_neg at h
    rw [splitOnSep, if_neg (Ne.symm h.1), ih h.2]

theorem resolveComps_append_single (p : List (List Char)) (c : List Char)
    (h0 : c ≠ []) (h1 : c ≠ ['.']) (h2 : c ≠ ['.', '.']) :
    resolveComps (p ++ [c]) = resolveComps p ++ [c] := by
  unfold resolveComps
  rw [List.foldl_append]
  simp [h0, h1, h2]

theorem cacheFileName_congr (k1 k2 : String) (h : sanitizeKey k1 = sanitizeKey k2) :
    cacheFileName k1 = cacheFileName k2 := by
  unfold cacheFileName
  rw [h]

/-- C3: for every key — path separators and `..` included — the cache file
path is the cache root extended by exactly one component which is never
empty, `.`, `..` or separator-containing, so the resolved path stays
strictly inside the root and `set` touches no other file; the file name is
the SHA-256 hex digest of the sanitized key (alphanumerics, `_`, `-` only),
never the raw key. -/
theorem fileCache_path_safety :
    (∀ (cacheDir : List (List Char)) (key : String),
      ∃ name, getCachePath cacheDir key = cacheDir ++ [name]
        ∧ name = cacheFileName key
        ∧ name ≠ [] ∧ name ≠ ['.'] ∧ name ≠ ['.', '.'] ∧ '/' ∉ name
        ∧ resolveComps (getCachePath cacheDir key) = resolveComps cacheDir ++ [name])
    ∧ (∀ key : String,
        cacheFileName key = sha256hex (utf8Encode (sanitizeKey key)) ++ ".cache".toList)
    ∧ (∀ k1 k2 : String, sanitizeKey k1 = sanitizeKey k2 →
        cacheFileName k1 = cacheFileName k2)
    ∧ (∀ (α : Type) (fc : FileCache α) (now : ℚ) (key : String) (v : α) (ttl : Option ℚ),
        (fc.set now key v ttl).store =
          dictSet fc.store (cacheFileName key)
            ⟨v, now, match ttl with | none => fc.defaultTtl | some u => some u⟩
        ∧ ∀ p, p ≠ cacheFileName key →
            dictGet (fc.set now key v ttl).store p = dictGet fc.store p) := by
  have hlen : ∀ key : String, (cacheFileName key).length = 70 := cacheFileName_length
  refine ⟨?_, fun _ => rfl, cacheFileName_congr, ?_⟩
  · intro cacheDir key
    have hne0 : cacheFileName key ≠ [] := by
      intro h
      have := hlen key
      rw [h] at this
      simp at this
    have hne1 : cacheFileName key ≠ ['.'] := by
      intro h
      have := hlen key
      rw [h] at this
      simp at this
    have hne2 : cacheFileName key ≠ ['.', '.'] := by
      intro h
      have := hlen key
      rw [h] at this
      simp at this
    have hsplit : getCachePath cacheDir key = cacheDir ++ [cacheFileName key] := by
      unfold getCachePath pathJoin
      rw [splitOnSep_eq_single _ (sep_not_mem_cacheFileName key)]
    refine ⟨cacheFileName key, hsplit, rfl, hne0, hne1, hne2,
      sep_not_mem_cacheFileName key, ?_⟩
    rw [hsplit]
    exact resolveComps_append_single _ _ hne0 hne1 hne2
  · intro α fc now key v ttl
    refine ⟨rfl, fun p hp => ?_⟩
    exact dictGet_dictSet_ne _ _ _ _ hp

/-- Witness for C3: two keys with the same sanitized form share a file name,
and a `set` leaves every other file name untouched. -/
theorem fileCache_path_safety_witness :
    cacheFileName "a b" = cacheFileName "ab"
    ∧ dictGet ((⟨none, []⟩ : FileCache ℕ).set 0 "k" 1 none).store ['x'] =
        dictGet ([] : List (List Char × FileEntry ℕ)) ['x'] := by
  constructor
  · exact fileCache_path_safety.2.2.1 "a b" "ab" (by decide)
  · refine (fileCache_path_safety.2.2.2 ℕ ⟨none, []⟩ 0 "k" 1 none).2 ['x'] ?_
    intro h
    have := congrArg List.length h
    rw [cacheFileName_length] at this
    simp at this

theorem memGet_snd_defaultTtl {α : Type} (mc : MemoryCache α) (now : ℚ) (key : String) :
    ((mc.get now key).2).defaultTtl = mc.defaultTtl := by
  unfold MemoryCache.get
  rcases dictGet mc.cache key with _ | e
  · rfl
  · by_cases h : e.isExpired now <;> simp [h]

theorem memSet_get_immediate {α : Type} (mc : MemoryCache α) (now : ℚ) (key : String)
    (v : α) (hT : ∀ u, mc.defaultTtl = some u → 0 ≤ u) :
    ((mc.set now key v none).get now key).1 = some v := by
  have hget : dictGet (mc.set now key v none).cache key
      = some (CacheEntry.mkAt v mc.defaultTtl now) :=
    memSet_cache_get_self mc now key v none
  have hexp : (CacheEntry.mkAt v (mc.defaultTtl) now).isExpired now = false := by
    rcases h : mc.defaultTtl with _ | u
    · simp [CacheEntry.isExpired, CacheEntry.mkAt, h]
    · simp [CacheEntry.isExpired, CacheEntry.mkAt, h]
      linarith [hT u h]
  rw [memGet_present _ _ _ _ hget]
  simp only [hexp, Bool.false_eq_true, if_false]
  rfl

theorem fileSet_get_immediate {α : Type} (fc : FileCache α) (now : ℚ) (key k' : String)
    (v : α) (hsan : cacheFileName k' = cacheFileName key)
    (hT : ∀ u, fc.defaultTtl = some u → 0 ≤ u) :
    ((fc.set now key v none).get now k').1 = some v := by
  unfold FileCache.get FileCache.set
  rw [hsan]
  rw [dictGet_dictSet_self]
  rcases h : fc.defaultTtl with _ | u
  · simp [CacheEntry.isExpired, CacheEntry.mkAt, CacheEntry.access, h]
  · have hlt : ¬(u < (0 : ℚ)) := not_lt.mpr (hT u h)
    simp [CacheEntry.isExpired, CacheEntry.mkAt, CacheEntry.access, h, hlt]

/-- C4: a key present (unexpired) only in the file tier is returned by
`MultiLevelCache.get` and promoted into the memory tier, so a subsequent
`MemoryCache.get` alone returns the same value; a key in neither tier is an
overall miss. -/
theorem multiLevelCache_promotion (α : Type) (mlc : MultiLevelCache α) (now : ℚ)
    (key : String) (v : α)
    (httl : ∀ u, mlc.memoryCache.defaultTtl = some u → 0 ≤ u) :
    ((mlc.memoryCache.get now key).1 = none → (mlc.fileCache.get now key).1 = some v →
      (mlc.get now key).1 = some v
      ∧ (((mlc.get now key).2.memoryCache.get now key).1 = some v))
    ∧ ((mlc.memoryCache.get now key).1 = none → (mlc.fileCache.get now key).1 = none →
      (mlc.get now key).1 = none) := by
  constructor
  · intro hm hf
    have hstep : mlc.get now key =
        (some v, { memoryCache := (mlc.memoryCache.get now key).2.set now key v none,
                   fileCache := (mlc.fileCache.get now key).2 }) := by
      simp only [MultiLevelCache.get, hm, hf]
    constructor
    · rw [hstep]
    · rw [hstep]
      exact memSet_get_immediate _ _ _ _
        (fun u hu => httl u ((memGet_snd_defaultTtl mlc.memoryCache now key) ▸ hu))
  · intro hm hf
    simp only [MultiLevelCache.get, hm, hf]

/-- Witness for C4: an empty memory tier plus a file tier holding 42 under
`"k"`; the multi-level `get` returns 42 and the promoted memory entry alone
then returns 42; a key in neither tier misses. -/
theorem multiLevelCache_promotion_witness :
    ((⟨⟨10, none, []⟩, (⟨none, []⟩ : FileCache ℕ).set 5 "k" 42 none⟩ :
        MultiLevelCache ℕ).get 5 "k").1 = some 42
    ∧ (((⟨⟨10, none, []⟩, (⟨none, []⟩ : FileCache ℕ).set 5 "k" 42 none⟩ :
        MultiLevelCache ℕ).get 5 "k").2.memoryCache.get 5 "k").1 = some 42
    ∧ ((⟨⟨10, none, []⟩, (⟨none, []⟩ : FileCache ℕ)⟩ :
        MultiLevelCache ℕ).get 0 "z").1 = none := by
  have hT : ∀ u : ℚ, (none : Option ℚ) = some u → 0 ≤ u := by
    intro u hu
    cases hu
  have hmem : (((⟨10, none, []⟩ : MemoryCache ℕ)).get 5 "k").1 = none := rfl
  have hfile : (((⟨none, []⟩ : FileCache ℕ).set 5 "k" 42 none).get 5 "k").1 = some 42 :=
    fileSet_get_immediate (⟨none, []⟩ : FileCache ℕ) 5 "k" "k" 42 rfl hT
  have h := multiLevelCache_promotion ℕ
    ⟨⟨10, none, []⟩, (⟨none, []⟩ : FileCache ℕ).set 5 "k" 42 none⟩ 5 "k" 42 hT
  refine ⟨(h.1 hmem hfile).1, (h.1 hmem hfile).2, ?_⟩
  have h2 := multiLevelCache_promotion ℕ ⟨⟨10, none, []⟩, (⟨none, []⟩ : FileCache ℕ)⟩ 0 "z" 0 hT
  exact h2.2 rfl rfl

theorem sanitizeKey_congr (k1 k2 : String) (h : sanitizeRaw k1 = sanitizeRaw k2) :
    sanitizeKey k1 = sanitizeKey k2 := by
  unfold sanitizeKey
  rw [h]

theorem fileSet_defaultTtl {α : Type} (fc : FileCache α) (now : ℚ) (key : String) (v : α)
    (ttl : Option ℚ) : (fc.set now key v ttl).defaultTtl = fc.defaultTtl := rfl

/-- C10: the key-to-path map is not injective — any two keys with the same
sanitized/truncated form (e.g. `"a/b"` and `"a.b"`), and any two keys that
sanitize to the empty string (both replaced by `'default'`, e.g. `"/"` and
`"."`), share a cache file path, so `set` under one key overwrites the entry
of the other and `get` under one key returns the value stored under the
other. -/
theorem fileCache_key_collision :
    (∀ (cacheDir : List (List Char)) (k1 k2 : String), sanitizeRaw k1 = sanitizeRaw k2 →
      getCachePath cacheDir k1 = getCachePath cacheDir k2)
    ∧ (("a/b" : String) ≠ "a.b" ∧ cacheFileName "a/b" = cacheFileName "a.b")
    ∧ (("/" : String) ≠ "." ∧ sanitizeKey "/" = "default".toList
        ∧ sanitizeKey "." = "default".toList ∧ cacheFileName "/" = cacheFileName ".")
    ∧ (∀ (α : Type) (fc : FileCache α) (now : ℚ) (k1 k2 : String) (v1 v2 : α),
        sanitizeRaw k1 = sanitizeRaw k2 → (∀ u, fc.defaultTtl = some u → 0 ≤ u) →
        (((fc.set now k1 v1 none).set now k2 v2 none).get now k1).1 = some v2
        ∧ ((fc.set now k2 v2 none).get now k1).1 = some v2) := by
  refine ⟨?_, ⟨by decide, ?_⟩, ⟨by decide, by decide, by decide, ?_⟩, ?_⟩
  · intro cacheDir k1 k2 h
    unfold getCachePath
    rw [cacheFileName_congr k1 k2 (sanitizeKey_congr k1 k2 h)]
  · exact cacheFileName_congr _ _ (by decide)
  · exact cacheFileName_congr _ _ (by decide)
  · intro α fc now k1 k2 v1 v2 hsan hT
    have hname : cacheFileName k1 = cacheFileName k2 :=
      cacheFileName_congr _ _ (sanitizeKey_congr _ _ hsan)
    constructor
    · exact fileSet_get_immediate (fc.set now k1 v1 none) now k2 k1 v2 hname hT
    · exact fileSet_get_immediate fc now k2 k1 v2 hname hT

/-- Witness for C10: with an empty file cache, storing 1 under `"a/b"` then
2 under `"a.b"` makes a `get` of `"a/b"` return 2; and a single store under
`"a.b"` is readable through `"a/b"`. -/
theorem fileCache_key_collision_witness :
    ((((⟨none, []⟩ : FileCache ℕ).set 0 "a/b" 1 none).set 0 "a.b" 2 none).get 0 "a/b").1 =
      some 2
    ∧ (((⟨none, []⟩ : FileCache ℕ).set 0 "a.b" 2 none).get 0 "a/b").1 = some 2 := by
  have hT : ∀ u : ℚ, (none : Option ℚ) = some u → 0 ≤ u := by
    intro u hu
    cases hu
  exact fileCache_key_collision.2.2.2 ℕ ⟨none, []⟩ 0 "a/b" "a.b" 1 2 (by decide) hT

/-- The per-identifier tracking state of `RateLimiter`
(`src/security/middleware.py`): the `request_history` deque plus the burst
counter and its reset time.  The three per-identifier `defaultdict`s of the
source are combined into one per-identifier record; a missing identifier
stands for the defaults `deque()`, `0`, `0.0`. -/
structure RateLimitEntry where
  history : List ℚ
  burstCounter : ℕ
  burstResetTime : ℚ
deriving DecidableEq

/-- `RateLimiter.__init__` configuration plus the per-identifier maps. -/
structure RateLimiter where
  requestsPerMinute : ℕ
  requestsPerHour : ℕ
  burstLimit : ℕ
  entries : List (String × RateLimitEntry)
deriving DecidableEq

/-- `defaultdict` access for an identifier. -/
def rlLookup (rl : RateLimiter) (identifier : String) : RateLimitEntry :=
  (dictGet rl.entries identifier).getD ⟨[], 0, 0⟩

/-- `_cleanup_old_entries`: `popleft` while the head is over an hour old. -/
def cleanupHistory (now : ℚ) : List ℚ → List ℚ
  | [] => []
  | t :: rest => if now - t > 3600 then cleanupHistory now rest else t :: rest

/-- The identifier's state after the bookkeeping at the top of `is_allowed`:
history cleanup, and the burst-counter reset when the last reset is more
than 10 seconds old. -/
def RateLimiter.pending (rl : RateLimiter) (now : ℚ) (identifier : String) : RateLimitEntry :=
  let s := rlLookup rl identifier
  let hist := cleanupHistory now s.history
  if now - s.burstResetTime > 10 then ⟨hist, 0, now⟩
  else ⟨hist, s.burstCounter, s.burstResetTime⟩

/-- Store an identifier's updated tracking state. -/
def rlWrite (rl : RateLimiter) (identifier : String) (e : RateLimitEntry) : RateLimiter :=
  { rl with entries := dictSet rl.entries identifier e }

/-- `RateLimiter.is_allowed` at wall-clock time `now`: deny when the burst
counter has reached `burst_limit`, or the sliding 60s/3600s counts have
reached their limits; otherwise record the request (append the timestamp,
bump the burst counter) and admit.  The human-readable denial reason string
is not modelled (no claim concerns it). -/
def RateLimiter.isAllowed (rl : RateLimiter) (now : ℚ) (identifier : String) :
    Bool × RateLimiter :=
  let p := rl.pending now identifier
  if rl.burstLimit ≤ p.burstCounter then
    (false, rlWrite rl identifier p)
  else if rl.requestsPerMinute ≤ (p.history.filter (fun t => now - t ≤ 60)).length then
    (false, rlWrite rl identifier p)
  else if rl.requestsPerHour ≤ (p.history.filter (fun t => now - t ≤ 3600)).length then
    (false, rlWrite rl identifier p)
  else
    (true, rlWrite rl identifier ⟨p.history ++ [now], p.burstCounter + 1, p.burstResetTime⟩)

/-- C1 (amended): `is_allowed` returns false iff at least one window's
count **before** the candidate request — the burst counter after its reset
check, or the pruned 60s/3600s history counts — already meets or exceeds
its limit (equivalently, iff admitting the candidate would make some
window's count strictly exceed its limit); and whenever it returns true the
current timestamp has been appended and the burst counter bumped before
returning.  The claim's phrasing "the count after including the candidate
meets or exceeds the limit" is refuted by
`rateLimiter_admission_counterexample`. -/
theorem rateLimiter_admission (rl : RateLimiter) (now : ℚ) (identifier : String) :
    ((rl.isAllowed now identifier).1 = false ↔
      rl.burstLimit ≤ (rl.pending now identifier).burstCounter
      ∨ rl.requestsPerMinute ≤
          ((rl.pending now identifier).history.filter (fun t => now - t ≤ 60)).length
      ∨ rl.requestsPerHour ≤
          ((rl.pending now identifier).history.filter (fun t => now - t ≤ 3600)).length)
    ∧ ((rl.isAllowed now identifier).1 = true →
        dictGet (rl.isAllowed now identifier).2.entries identifier =
          some ⟨(rl.pending now identifier).history ++ [now],
                (rl.pending now identifier).burstCounter + 1,
                (rl.pending now identifier).burstResetTime⟩) := by
  unfold RateLimiter.isAllowed
  by_cases hb : rl.burstLimit ≤ (rl.pending now identifier).burstCounter
  · rw [if_pos hb]
    exact ⟨⟨fun _ => Or.inl hb, fun _ => rfl⟩, fun h => absurd h (by simp)⟩
  · rw [if_neg hb]
    by_cases hm : rl.requestsPerMinute ≤
        ((rl.pending now identifier).history.filter (fun t => now - t ≤ 60)).length
    · rw [if_pos hm]
      exact ⟨⟨fun _ => Or.inr (Or.inl hm), fun _ => rfl⟩, fun h => absurd h (by simp)⟩
    · rw [if_neg hm]
      by_cases hh : rl.requestsPerHour ≤
          ((rl.pending now identifier).history.filter (fun t => now - t ≤ 3600)).length
      · rw [if_pos hh]
        exact ⟨⟨fun _ => Or.inr (Or.inr hh), fun _ => rfl⟩, fun h => absurd h (by simp)⟩
      · rw [if_neg hh]
        refine ⟨⟨fun h => absurd h (by simp), fun h => ?_⟩, fun _ => dictGet_dictSet_self _ _ _⟩
        rcases h with h | h | h
        · exact absurd h hb
        · exact absurd h hm
        · exact absurd h hh

/-- C1 counterexample: with `burst_limit = 1` and a fresh identifier, the
burst count including the candidate request (0 + 1) meets the limit, yet
`is_allowed` admits the request — so "false iff some window's count after
including the candidate would meet or exceed its limit" fails in the
right-to-left direction. -/
theorem rateLimiter_admission_counterexample :
    ((⟨100, 1000, 1, []⟩ : RateLimiter).isAllowed 100 "ip").1 = true
    ∧ (⟨100, 1000, 1, []⟩ : RateLimiter).burstLimit ≤
        ((⟨100, 1000, 1, []⟩ : RateLimiter).pending 100 "ip").burstCounter + 1 := by
  constructor
  · norm_num [RateLimiter.isAllowed, RateLimiter.pending, rlLookup, dictGet,
      cleanupHistory, rlWrite]
  · norm_num [RateLimiter.pending, rlLookup, dictGet, cleanupHistory]

/-- Witness for C1 (amended): an admitted request is recorded. -/
theorem rateLimiter_admission_witness :
    dictGet ((⟨60, 1000, 10, []⟩ : RateLimiter).isAllowed 100 "ip").2.entries "ip" =
      some ⟨((⟨60, 1000, 10, []⟩ : RateLimiter).pending 100 "ip").history ++ [100],
            ((⟨60, 1000, 10, []⟩ : RateLimiter).pending 100 "ip").burstCounter + 1,
            ((⟨60, 1000, 10, []⟩ : RateLimiter).pending 100 "ip").burstResetTime⟩ :=
  (rateLimiter_admission ⟨60, 1000, 10, []⟩ 100 "ip").2 (by
    norm_num [RateLimiter.isAllowed, RateLimiter.pending, rlLookup, dictGet,
      cleanupHistory, rlWrite])


theorem rateLimiter_pending_eval (rl : RateLimiter) (now : ℚ) (identifier : String)
    (e : RateLimitEntry) (hlook : dictGet rl.entries identifier = some e) :
    rl.pending now identifier =
      if now - e.burstResetTime > 10 then ⟨cleanupHistory now e.history, 0, now⟩
      else ⟨cleanupHistory now e.history, e.burstCounter, e.burstResetTime⟩ := by
  unfold RateLimiter.pending rlLookup
  rw [hlook]
  rfl

/-- C7: with `burst_limit = 3` (and the source's default minute/hour limits
60 and 1000), four `is_allowed` calls for the same fresh identifier within a
10-second span answer true, true, true, false.  The hypothesis `10 < t1`
reflects that `time.time()` is far past the epoch: a fresh identifier's
`burst_reset_time` defaults to `0.0`, so the first call anchors the burst
sub-window at itself only when the clock reads more than 10. -/
theorem rateLimiter_burst_sequence (t1 t2 t3 t4 : ℚ) (h1 : 10 < t1) (h12 : t1 ≤ t2)
    (h23 : t2 ≤ t3) (h34 : t3 ≤ t4) (hspan : t4 - t1 ≤ 10) :
    ((⟨60, 1000, 3, []⟩ : RateLimiter).isAllowed t1 "ip").1 = true
    ∧ (((⟨60, 1000, 3, []⟩ : RateLimiter).isAllowed t1 "ip").2.isAllowed t2 "ip").1 = true
    ∧ ((((⟨60, 1000, 3, []⟩ : RateLimiter).isAllowed t1 "ip").2.isAllowed t2 "ip").2.isAllowed
        t3 "ip").1 = true
    ∧ (((((⟨60, 1000, 3, []⟩ : RateLimiter).isAllowed t1 "ip").2.isAllowed t2 "ip").2.isAllowed
        t3 "ip").2.isAllowed t4 "ip").1 = false := by
  have hp1 : (⟨60, 1000, 3, []⟩ : RateLimiter).pending t1 "ip" = ⟨[], 0, t1⟩ := by
    simp only [RateLimiter.pending, rlLookup, dictGet, Option.getD_none, cleanupHistory]
    rw [if_pos (show t1 - (0 : ℚ) > 10 by linarith)]
  have hs1 : (⟨60, 1000, 3, []⟩ : RateLimiter).isAllowed t1 "ip"
      = (true, ⟨60, 1000, 3, [("ip", ⟨[t1], 1, t1⟩)]⟩) := by
    simp only [RateLimiter.isAllowed, hp1]
    norm_num [rlWrite, dictSet]
  have hp2 : (⟨60, 1000, 3, [("ip", ⟨[t1], 1, t1⟩)]⟩ : RateLimiter).pending t2 "ip"
      = ⟨[t1], 1, t1⟩ := by
    rw [rateLimiter_pending_eval _ _ _ ⟨[t1], 1, t1⟩ (by simp [dictGet])]
    dsimp only
    simp only [cleanupHistory]
    rw [if_neg (show ¬(t2 - t1 > 3600) by linarith), if_neg (show ¬(t2 - t1 > 10) by linarith)]
  have hm2 : ¬(60 ≤ (List.filter (fun t => decide (t2 - t ≤ 60)) [t1]).length) := by
    have hb := List.length_filter_le (fun t => decide (t2 - t ≤ 60)) [t1]
    simp only [List.length_cons, List.length_nil] at hb
    omega
  have hh2 : ¬(1000 ≤ (List.filter (fun t => decide (t2 - t ≤ 3600)) [t1]).length) := by
    have hb := List.length_filter_le (fun t => decide (t2 - t ≤ 3600)) [t1]
    simp only [List.length_cons, List.length_nil] at hb
    omega
  have hs2 : (⟨60, 1000, 3, [("ip", ⟨[t1], 1, t1⟩)]⟩ : RateLimiter).isAllowed t2 "ip"
      = (true, ⟨60, 1000, 3, [("ip", ⟨[t1, t2], 2, t1⟩)]⟩) := by
    simp only [RateLimiter.isAllowed, hp2]
    rw [if_neg (show ¬((3 : ℕ) ≤ 1) by norm_num), if_neg hm2, if_neg hh2]
    norm_num [rlWrite, dictSet]
  have hp3 : (⟨60, 1000, 3, [("ip", ⟨[t1, t2], 2, t1⟩)]⟩ : RateLimiter).pending t3 "ip"
      = ⟨[t1, t2], 2, t1⟩ := by
    rw [rateLimiter_pending_eval _ _ _ ⟨[t1, t2], 2, t1⟩ (by simp [dictGet])]
    dsimp only
    simp only [cleanupHistory]
    rw [if_neg (show ¬(t3 - t1 > 3600) by linarith), if_neg (show ¬(t3 - t1 > 10) by linarith)]
  have hm3 : ¬(60 ≤ (List.filter (fun t => decide (t3 - t ≤ 60)) [t1, t2]).length) := by
    have hb := List.length_filter_le (fun t => decide (t3 - t ≤ 60)) [t1, t2]
    simp only [List.length_cons, List.length_nil] at hb
    omega
  have hh3 : ¬(1000 ≤ (List.filter (fun t => decide (t3 - t ≤ 3600)) [t1, t2]).length) := by
    have hb := List.length_filter_le (fun t => decide (t3 - t ≤ 3600)) [t1, t2]
    simp only [List.length_cons, List.length_nil] at hb
    omega
  have hs3 : (⟨60, 1000, 3, [("ip", ⟨[t1, t2], 2, t1⟩)]⟩ : RateLimiter).isAllowed t3 "ip"
      = (true, ⟨60, 1000, 3, [("ip", ⟨[t1, t2, t3], 3, t1⟩)]⟩) := by
    simp only [RateLimiter.isAllowed, hp3]
    rw [if_neg (show ¬((3 : ℕ) ≤ 2) by norm_num), if_neg hm3, if_neg hh3]
    norm_num [rlWrite, dictSet]
  have hp4 : (⟨60, 1000, 3, [("ip", ⟨[t1, t2, t3], 3, t1⟩)]⟩ : RateLimiter).pending t4 "ip"
      = ⟨[t1, t2, t3], 3, t1⟩ := by
    rw [rateLimiter_pending_eval _ _ _ ⟨[t1, t2, t3], 3, t1⟩ (by simp [dictGet])]
    dsimp only
    simp only [cleanupHistory]
    rw [if_neg (show ¬(t4 - t1 > 3600) by linarith), if_neg (show ¬(t4 - t1 > 10) by linarith)]
  have hs4 : ((⟨60, 1000, 3, [("ip", ⟨[t1, t2, t3], 3, t1⟩)]⟩ : RateLimiter).isAllowed
      t4 "ip").1 = false := by
    simp only [RateLimiter.isAllowed, hp4]
    rw [if_pos (show (3 : ℕ) ≤ 3 by norm_num)]
  exact ⟨by rw [hs1], by rw [hs1, hs2], by rw [hs1, hs2, hs3], by rw [hs1, hs2, hs3]; exact hs4⟩

/-- Witness for C7 at clock times 100..103. -/
theorem rateLimiter_burst_sequence_witness :
    ((⟨60, 1000, 3, []⟩ : RateLimiter).isAllowed 100 "ip").1 = true
    ∧ (((⟨60, 1000, 3, []⟩ : RateLimiter).isAllowed 100 "ip").2.isAllowed 101 "ip").1 = true
    ∧ ((((⟨60, 1000, 3, []⟩ : RateLimiter).isAllowed 100 "ip").2.isAllowed 101 "ip").2.isAllowed
        102 "ip").1 = true
    ∧ (((((⟨60, 1000, 3, []⟩ : RateLimiter).isAllowed 100 "ip").2.isAllowed 101 "ip").2.isAllowed
        102 "ip").2.isAllowed 103 "ip").1 = false :=
  rateLimiter_burst_sequence 100 101 102 103 (by norm_num) (by norm_num) (by norm_num)
    (by norm_num) (by norm_num)

/-- `CircuitState` from `src/utils/circuit_breaker.py`. -/
inductive CircuitState where
  | CLOSED
  | OPEN
  | HALF_OPEN
deriving DecidableEq

/-- `CircuitBreaker` configuration and mutable state (`failure_count`,
`last_failure_time`, `state`).  `expected_exception` is represented on the
outcome side: each invocation outcome says whether a raised exception
matches the configured expected kind. -/
structure CircuitBreaker where
  failureThreshold : ℕ
  timeout : ℚ
  failureCount : ℕ
  lastFailureTime : Option ℚ
  state : CircuitState
deriving DecidableEq

/-- What the wrapped zero-argument operation does when invoked: return a
value, or raise an exception that either matches (`expected = true`) or does
not match the breaker's `expected_exception`. -/
inductive CallOutcome (α : Type) where
  | success (value : α)
  | failure (expected : Bool)
deriving DecidableEq

/-- The observable result of `call_sync`: the wrapped value, the
`CircuitBreakerError` fast-fail, or the operation's own exception
propagating (tagged by whether it matched `expected_exception`). -/
inductive CallResult (α : Type) where
  | ok (value : α)
  | circuitOpen
  | raised (expected : Bool)
deriving DecidableEq

/-- `_should_attempt_reset`:
`self.last_failure_time and time.time() - self.last_failure_time >= self.timeout`.
Python truthiness makes both `None` and `0.0` falsy, hence the extra
`t = 0` guard. -/
def CircuitBreaker.shouldAttemptReset (cb : CircuitBreaker) (now : ℚ) : Bool :=
  match cb.lastFailureTime with
  | none => false
  | some t => if t = 0 then false else decide (now - t ≥ cb.timeout)

/-- The state mutation at the top of `call_sync`: an OPEN breaker whose
timeout has elapsed moves to HALF_OPEN before the operation is attempted. -/
def CircuitBreaker.entryState (cb : CircuitBreaker) (now : ℚ) : CircuitBreaker :=
  if cb.state = CircuitState.OPEN ∧ cb.shouldAttemptReset now = true
  then { cb with state := CircuitState.HALF_OPEN }
  else cb

/-- `_on_success`: reset `failure_count`, close the circuit. -/
def CircuitBreaker.onSuccess (cb : CircuitBreaker) : CircuitBreaker :=
  { cb with failureCount := 0, state := CircuitState.CLOSED }

/-- `_on_failure` at time `now`: count the failure, stamp
`last_failure_time`, open the circuit at the threshold. -/
def CircuitBreaker.onFailure (cb : CircuitBreaker) (now : ℚ) : CircuitBreaker :=
  let cb1 := { cb with failureCount := cb.failureCount + 1, lastFailureTime := some now }
  if cb1.failureThreshold ≤ cb1.failureCount
  then { cb1 with state := CircuitState.OPEN } else cb1

/-- `call_sync` at time `now` for an operation with the given outcome: an
OPEN breaker whose timeout has not elapsed fast-fails without invoking the
operation; otherwise the (possibly HALF_OPEN) breaker invokes it and
updates state on success or on an expected-kind exception, while an
unexpected exception propagates with no `_on_failure` bookkeeping. -/
def CircuitBreaker.callSync {α : Type} (cb : CircuitBreaker) (now : ℚ)
    (outcome : CallOutcome α) : CallResult α × CircuitBreaker :=
  if cb.state = CircuitState.OPEN ∧ cb.shouldAttemptReset now = false
  then (CallResult.circuitOpen, cb)
  else
    let cb1 := cb.entryState now
    match outcome with
    | CallOutcome.success v => (CallResult.ok v, cb1.onSuccess)
    | CallOutcome.failure true => (CallResult.raised true, cb1.onFailure now)
    | CallOutcome.failure false => (CallResult.raised false, cb1)

/-- `reset()`: manual administrative reset. -/
def CircuitBreaker.reset (cb : CircuitBreaker) : CircuitBreaker :=
  { cb with failureCount := 0, lastFailureTime := none, state := CircuitState.CLOSED }

/-- C2: with `failure_threshold = 3`, three consecutive expected-kind
failures from CLOSED leave the breaker OPEN (count 3, last failure stamped);
a fourth call before `timeout` has elapsed since the last failure fast-fails
with the circuit-open error for every possible operation outcome (the
operation is not invoked); once `timeout` has elapsed the next call enters
HALF_OPEN and attempts the operation, and a successful attempt closes the
breaker with `failure_count = 0`.  (`n3 ≠ 0` reflects that `time.time()` is
never the falsy float `0.0`.) -/
theorem circuitBreaker_trip_and_recover (T n1 n2 n3 n4 n5 : ℚ) (v : ℕ)
    (hn3 : n3 ≠ 0) (h4 : n4 - n3 < T) (h5 : n5 - n3 ≥ T) :
    ((((⟨3, T, 0, none, CircuitState.CLOSED⟩ : CircuitBreaker).callSync n1
        (CallOutcome.failure (α := ℕ) true)).2.callSync n2
        (CallOutcome.failure (α := ℕ) true)).2.callSync n3
        (CallOutcome.failure (α := ℕ) true)).2
      = ⟨3, T, 3, some n3, CircuitState.OPEN⟩
    ∧ (∀ o : CallOutcome ℕ,
        (⟨3, T, 3, some n3, CircuitState.OPEN⟩ : CircuitBreaker).callSync n4 o
          = (CallResult.circuitOpen, ⟨3, T, 3, some n3, CircuitState.OPEN⟩))
    ∧ ((⟨3, T, 3, some n3, CircuitState.OPEN⟩ : CircuitBreaker).entryState n5).state
        = CircuitState.HALF_OPEN
    ∧ (⟨3, T, 3, some n3, CircuitState.OPEN⟩ : CircuitBreaker).callSync n5
        (CallOutcome.success v)
      = (CallResult.ok v, ⟨3, T, 0, some n3, CircuitState.CLOSED⟩) := by
  have hc1 : (⟨3, T, 0, none, CircuitState.CLOSED⟩ : CircuitBreaker).callSync n1
      (CallOutcome.failure (α := ℕ) true)
      = (CallResult.raised true, ⟨3, T, 1, some n1, CircuitState.CLOSED⟩) := by
    norm_num [CircuitBreaker.callSync, CircuitBreaker.entryState,
      CircuitBreaker.shouldAttemptReset, CircuitBreaker.onFailure,
      show ¬(CircuitState.CLOSED = CircuitState.OPEN) by decide]
  have hc2 : (⟨3, T, 1, some n1, CircuitState.CLOSED⟩ : CircuitBreaker).callSync n2
      (CallOutcome.failure (α := ℕ) true)
      = (CallResult.raised true, ⟨3, T, 2, some n2, CircuitState.CLOSED⟩) := by
    norm_num [CircuitBreaker.callSync, CircuitBreaker.entryState,
      CircuitBreaker.shouldAttemptReset, CircuitBreaker.onFailure,
      show ¬(CircuitState.CLOSED = CircuitState.OPEN) by decide]
  have hc3 : (⟨3, T, 2, some n2, CircuitState.CLOSED⟩ : CircuitBreaker).callSync n3
      (CallOutcome.failure (α := ℕ) true)
      = (CallResult.raised true, ⟨3, T, 3, some n3, CircuitState.OPEN⟩) := by
    norm_num [CircuitBreaker.callSync, CircuitBreaker.entryState,
      CircuitBreaker.shouldAttemptReset, CircuitBreaker.onFailure,
      show ¬(CircuitState.CLOSED = CircuitState.OPEN) by decide]
  have hsr4 : (⟨3, T, 3, some n3, CircuitState.OPEN⟩ : CircuitBreaker).shouldAttemptReset n4
      = false := by
    simp [CircuitBreaker.shouldAttemptReset, hn3]
    linarith
  have hsr5 : (⟨3, T, 3, some n3, CircuitState.OPEN⟩ : CircuitBreaker).shouldAttemptReset n5
      = true := by
    simp [CircuitBreaker.shouldAttemptReset, hn3]
    linarith
  refine ⟨by rw [hc1, hc2, hc3], ?_, ?_, ?_⟩
  · intro o
    simp [CircuitBreaker.callSync, hsr4]
  · simp [CircuitBreaker.entryState, hsr5]
  · simp [CircuitBreaker.callSync, CircuitBreaker.entryState, CircuitBreaker.onSuccess, hsr5]

/-- Witness for C2 with timeout 30 and failures at times 10, 11, 12: a call
at 20 fast-fails, a call at 42 recovers. -/
theorem circuitBreaker_trip_and_recover_witness :
    ((((⟨3, 30, 0, none, CircuitState.CLOSED⟩ : CircuitBreaker).callSync 10
        (CallOutcome.failure (α := ℕ) true)).2.callSync 11
        (CallOutcome.failure (α := ℕ) true)).2.callSync 12
        (CallOutcome.failure (α := ℕ) true)).2
      = ⟨3, 30, 3, some 12, CircuitState.OPEN⟩
    ∧ (∀ o : CallOutcome ℕ,
        (⟨3, 30, 3, some 12, CircuitState.OPEN⟩ : CircuitBreaker).callSync 20 o
          = (CallResult.circuitOpen, ⟨3, 30, 3, some 12, CircuitState.OPEN⟩))
    ∧ ((⟨3, 30, 3, some 12, CircuitState.OPEN⟩ : CircuitBreaker).entryState 42).state
        = CircuitState.HALF_OPEN
    ∧ (⟨3, 30, 3, some 12, CircuitState.OPEN⟩ : CircuitBreaker).callSync 42
        (CallOutcome.success 7)
      = (CallResult.ok 7, ⟨3, 30, 0, some 12, CircuitState.CLOSED⟩) :=
  circuitBreaker_trip_and_recover 30 10 11 12 20 42 7 (by norm_num) (by norm_num) (by norm_num)

theorem entryState_fields (cb : CircuitBreaker) (now : ℚ) :
    (cb.entryState now).failureThreshold = cb.failureThreshold
    ∧ (cb.entryState now).timeout = cb.timeout
    ∧ (cb.entryState now).failureCount = cb.failureCount
    ∧ (cb.entryState now).lastFailureTime = cb.lastFailureTime := by
  unfold CircuitBreaker.entryState
  split <;> simp

theorem entryState_of_not_open (cb : CircuitBreaker) (now : ℚ)
    (h : cb.state ≠ CircuitState.OPEN) : cb.entryState now = cb := by
  unfold CircuitBreaker.entryState
  rw [if_neg]
  exact fun hc => h hc.1

theorem callSync_of_open_stuck {α : Type} (cb : CircuitBreaker) (now : ℚ)
    (o : CallOutcome α)
    (hc : cb.state = CircuitState.OPEN ∧ cb.shouldAttemptReset now = false) :
    cb.callSync now o = (CallResult.circuitOpen, cb) := by
  unfold CircuitBreaker.callSync
  rw [if_pos hc]

theorem callSync_of_proceed_success {α : Type} (cb : CircuitBreaker) (now : ℚ) (v : α)
    (hc : ¬(cb.state = CircuitState.OPEN ∧ cb.shouldAttemptReset now = false)) :
    cb.callSync now (CallOutcome.success v)
      = (CallResult.ok v, (cb.entryState now).onSuccess) := by
  unfold CircuitBreaker.callSync
  rw [if_neg hc]

theorem callSync_of_proceed_unexpected {α : Type} (cb : CircuitBreaker) (now : ℚ)
    (hc : ¬(cb.state = CircuitState.OPEN ∧ cb.shouldAttemptReset now = false)) :
    cb.callSync now (CallOutcome.failure (α := α) false)
      = (CallResult.raised false, cb.entryState now) := by
  unfold CircuitBreaker.callSync
  rw [if_neg hc]

theorem callSync_of_proceed_expected {α : Type} (cb : CircuitBreaker) (now : ℚ)
    (hc : ¬(cb.state = CircuitState.OPEN ∧ cb.shouldAttemptReset now = false)) :
    cb.callSync now (CallOutcome.failure (α := α) true)
      = (CallResult.raised true, (cb.entryState now).onFailure now) := by
  unfold CircuitBreaker.callSync
  rw [if_neg hc]

/-- C9 (amended): an exception not matching the configured expected kind
propagates and leaves `failure_count` and `last_failure_time` unchanged;
from any non-OPEN state the breaker is left entirely unchanged, and in every
case the only state mutation is the OPEN to HALF_OPEN move already performed
at call entry (where the breaker then remains); and only an expected-kind
exception can increase `failure_count` or move a non-OPEN breaker to OPEN.
The claim's "state unchanged in all cases" is refuted by
`circuitBreaker_unexpected_counterexample`. -/
theorem circuitBreaker_unexpected_propagates (α : Type) (cb : CircuitBreaker) (now : ℚ) :
    ((cb.callSync now (CallOutcome.failure (α := α) false)).2.failureCount = cb.failureCount
      ∧ (cb.callSync now (CallOutcome.failure (α := α) false)).2.lastFailureTime
          = cb.lastFailureTime
      ∧ (cb.state ≠ CircuitState.OPEN →
          cb.callSync now (CallOutcome.failure (α := α) false)
            = (CallResult.raised false, cb))
      ∧ ((cb.callSync now (CallOutcome.failure (α := α) false)).1 = CallResult.raised false →
          (cb.callSync now (CallOutcome.failure (α := α) false)).2 = cb.entryState now))
    ∧ (∀ o : CallOutcome α,
        cb.failureCount < (cb.callSync now o).2.failureCount → o = CallOutcome.failure true)
    ∧ (∀ o : CallOutcome α,
        cb.state ≠ CircuitState.OPEN → (cb.callSync now o).2.state = CircuitState.OPEN →
          o = CallOutcome.failure true) := by
  by_cases hc : cb.state = CircuitState.OPEN ∧ cb.shouldAttemptReset now = false
  · refine ⟨⟨?_, ?_, ?_, ?_⟩, ?_, ?_⟩
    · rw [callSync_of_open_stuck _ _ _ hc]
    · rw [callSync_of_open_stuck _ _ _ hc]
    · intro h
      exact absurd hc.1 h
    · rw [callSync_of_open_stuck _ _ _ hc]
      intro h
      exact CallResult.noConfusion h
    · intro o h
      rw [callSync_of_open_stuck _ _ _ hc] at h
      exact absurd h (lt_irrefl _)
    · intro o h1 _
      exact absurd hc.1 h1
  · refine ⟨⟨?_, ?_, ?_, ?_⟩, ?_, ?_⟩
    · rw [callSync_of_proceed_unexpected _ _ hc]
      exact (entryState_fields cb now).2.2.1
    · rw [callSync_of_proceed_unexpected _ _ hc]
      exact (entryState_fields cb now).2.2.2
    · intro h
      rw [callSync_of_proceed_unexpected _ _ hc, entryState_of_not_open cb now h]
    · intro _
      rw [callSync_of_proceed_unexpected _ _ hc]
    · intro o h
      rcases o with v | e
      · rw [callSync_of_proceed_success _ _ _ hc] at h
        simp [CircuitBreaker.onSuccess] at h
      · cases e
        · rw [callSync_of_proceed_unexpected _ _ hc] at h
          rw [(entryState_fields cb now).2.2.1] at h
          exact absurd h (lt_irrefl _)
        · rfl
    · intro o h1 h2
      have hent : cb.entryState now = cb := entryState_of_not_open cb now h1
      rcases o with v | e
      · rw [callSync_of_proceed_success _ _ _ hc, hent] at h2
        simp [CircuitBreaker.onSuccess] at h2
      · cases e
        · rw [callSync_of_proceed_unexpected _ _ hc, hent] at h2
          exact absurd h2 h1
        · rfl

/-- C9 counterexample: an OPEN breaker past its timeout moves to HALF_OPEN
at call entry; when the operation then raises an unexpected exception, the
exception propagates but the state is HALF_OPEN, not the original OPEN — so
"leaves failure_count, last_failure_time, and state all unchanged" fails for
the state component. -/
theorem circuitBreaker_unexpected_counterexample :
    (⟨3, 30, 3, some 10, CircuitState.OPEN⟩ : CircuitBreaker).callSync 50
      (CallOutcome.failure (α := ℕ) false)
      = (CallResult.raised false, ⟨3, 30, 3, some 10, CircuitState.HALF_OPEN⟩)
    ∧ CircuitState.HALF_OPEN ≠ CircuitState.OPEN := by
  constructor
  · norm_num [CircuitBreaker.callSync, CircuitBreaker.entryState,
      CircuitBreaker.shouldAttemptReset]
  · decide

/-- Witness for C9 (amended): a CLOSED breaker hit by an unexpected
exception propagates it and is left entirely unchanged. -/
theorem circuitBreaker_unexpected_propagates_witness :
    (⟨3, 30, 0, none, CircuitState.CLOSED⟩ : CircuitBreaker).callSync 5
      (CallOutcome.failure (α := ℕ) false)
      = (CallResult.raised false, ⟨3, 30, 0, none, CircuitState.CLOSED⟩) :=
  (circuitBreaker_unexpected_propagates ℕ ⟨3, 30, 0, none, CircuitState.CLOSED⟩ 5).1.2.2.1
    (by decide)

/-- `SecurityEventMonitor` from `src/security/secure_logging.py`:
per-event-type alert thresholds (`{'count': .., 'window': ..}`) and the
per-`(event_type, identifier)` lists of event timestamps.  The two-level
`event_counts[event_type][identifier]` dict is modelled as one map keyed by
the pair (both levels are initialized on demand, which is equivalent). -/
structure SecurityEventMonitor where
  alertThresholds : List (String × ℕ × ℚ)
  eventCounts : List ((String × String) × List ℚ)
deriving DecidableEq

/-- The thresholds installed by `SecurityEventMonitor.__init__`, keyed by
the `SecurityEventType` enum values. -/
def defaultAlertThresholds : List (String × ℕ × ℚ) :=
  [("auth_failure", (5, 300)), ("rate_limit_exceeded", (10, 600)),
   ("injection_attempt", (3, 300)), ("suspicious_activity", (5, 600))]

/-- `_check_alert_thresholds` at time `now`: unconfigured event types are
never evaluated; otherwise append the current event, prune events older than
the window (`event_time >= now - window` kept), and report whether
`_trigger_alert` fires (`count >= threshold`).  The counter is not reset on
alert. -/
def SecurityEventMonitor.checkAlert (m : SecurityEventMonitor) (now : ℚ)
    (eventType identifier : String) : Bool × SecurityEventMonitor :=
  match dictGet m.alertThresholds eventType with
  | none => (false, m)
  | some (cnt, window) =>
    let times := (dictGet m.eventCounts (eventType, identifier)).getD []
    let times2 := (times ++ [now]).filter (fun t => now - window ≤ t)
    (decide (cnt ≤ times2.length),
     { m with eventCounts := dictSet m.eventCounts (eventType, identifier) times2 })

/-- Process a sequence of events of one type for one identifier, counting
the alerts fired. -/
def SecurityEventMonitor.processSeq (eventType identifier : String) :
    SecurityEventMonitor → List ℚ → ℕ × SecurityEventMonitor
  | m, [] => (0, m)
  | m, t :: ts =>
    let r := m.checkAlert t eventType identifier
    let rest := SecurityEventMonitor.processSeq eventType identifier r.2 ts
    ((if r.1 = true then 1 else 0) + rest.1, rest.2)

theorem checkAlert_eval (m : SecurityEventMonitor) (now : ℚ) (eventType identifier : String)
    (cnt : ℕ) (window : ℚ) (times : List ℚ)
    (hth : dictGet m.alertThresholds eventType = some (cnt, window))
    (hst : (dictGet m.eventCounts (eventType, identifier)).getD [] = times) :
    m.checkAlert now eventType identifier =
      (decide (cnt ≤ ((times ++ [now]).filter (fun t => now - window ≤ t)).length),
       { m with
          eventCounts :=
            dictSet m.eventCounts (eventType, identifier)
              ((times ++ [now]).filter (fun t => now - window ≤ t)) }) := by
  unfold SecurityEventMonitor.checkAlert
  rw [hth, hst]

theorem monitor_sparse_aux (identifier : String) (ts : List ℚ) :
    ∀ (m : SecurityEventMonitor),
      dictGet m.alertThresholds "auth_failure" = some (5, 300) →
      (∀ x ∈ (dictGet m.eventCounts ("auth_failure", identifier)).getD [],
        ∀ h ∈ ts.head?, x + 300 < h) →
      List.Chain' (fun a b => 300 < b - a) ts →
      (SecurityEventMonitor.processSeq "auth_failure" identifier m ts).1 = 0 := by
  induction ts with
  | nil =>
    intro m _ _ _
    rfl
  | cons t ts ih =>
    intro m hth hprev hchain
    have hc := List.chain'_cons'.mp hchain
    have heval := checkAlert_eval m t "auth_failure" identifier 5 300
      ((dictGet m.eventCounts ("auth_failure", identifier)).getD []) hth rfl
    have hfilter : (((dictGet m.eventCounts ("auth_failure", identifier)).getD [] ++ [t]).filter
        (fun x => decide (t - 300 ≤ x))) = [t] := by
      rw [List.filter_append]
      have h1 : ((dictGet m.eventCounts ("auth_failure", identifier)).getD []).filter
          (fun x => decide (t - 300 ≤ x)) = [] := by
        rw [List.filter_eq_nil_iff]
        intro a ha
        have hlt := hprev a ha t (by simp)
        simp only [decide_eq_true_eq]
        intro hcon
        linarith
      have h2 : [t].filter (fun x => decide (t - 300 ≤ x)) = [t] := by
        have hle : t - 300 ≤ t := by linarith
        simp [hle]
      rw [h1, h2, List.nil_append]
    rw [hfilter] at heval
    have hres : m.checkAlert t "auth_failure" identifier
        = (false, { m with
            eventCounts := dictSet m.eventCounts ("auth_failure", identifier) [t] }) := by
      rw [heval]
      norm_num
    simp only [SecurityEventMonitor.processSeq, hres, Bool.false_eq_true, if_false,
      Nat.zero_add]
    apply ih
    · exact hth
    · intro x hx h hh
      rw [dictGet_dictSet_self] at hx
      simp only [Option.getD_some, List.mem_singleton] at hx
      subst hx
      have := hc.1 h hh
      linarith
    · exact hc.2

/-- C5: for the `auth_failure` event type (configured `count 5`,
`window 300`), five events for one identifier within 300 seconds fire
exactly one alert, on the fifth event (the first four fire none); and any
sequence of events whose consecutive gaps all exceed 300 seconds never
fires an alert. -/
theorem securityMonitor_threshold_alerts (identifier : String) (t1 t2 t3 t4 t5 : ℚ)
    (h12 : t1 ≤ t2) (h23 : t2 ≤ t3) (h34 : t3 ≤ t4) (h45 : t4 ≤ t5) (hspan : t5 - t1 ≤ 300) :
    (SecurityEventMonitor.processSeq "auth_failure" identifier
        ⟨defaultAlertThresholds, []⟩ [t1, t2, t3, t4, t5]).1 = 1
    ∧ (SecurityEventMonitor.processSeq "auth_failure" identifier
        ⟨defaultAlertThresholds, []⟩ [t1, t2, t3, t4]).1 = 0
    ∧ (∀ ts : List ℚ, List.Chain' (fun a b => 300 < b - a) ts →
        (SecurityEventMonitor.processSeq "auth_failure" identifier
          ⟨defaultAlertThresholds, []⟩ ts).1 = 0) := by
  have e1 : (⟨defaultAlertThresholds, []⟩ : SecurityEventMonitor).checkAlert t1
      "auth_failure" identifier
      = (false, ⟨defaultAlertThresholds, [(("auth_failure", identifier), [t1])]⟩) := by
    rw [checkAlert_eval _ t1 "auth_failure" identifier 5 300 []
      (by simp [defaultAlertThresholds, dictGet]) (by simp [dictGet])]
    have hf : (([] : List ℚ) ++ [t1]).filter (fun x => decide (t1 - 300 ≤ x)) = [t1] := by
      have f1 : t1 - 300 ≤ t1 := by linarith
      simp [f1]
    rw [hf]
    norm_num [dictSet]
  have e2 : (⟨defaultAlertThresholds, [(("auth_failure", identifier), [t1])]⟩ :
      SecurityEventMonitor).checkAlert t2 "auth_failure" identifier
      = (false, ⟨defaultAlertThresholds, [(("auth_failure", identifier), [t1, t2])]⟩) := by
    rw [checkAlert_eval _ t2 "auth_failure" identifier 5 300 [t1]
      (by simp [defaultAlertThresholds, dictGet]) (by simp [dictGet])]
    have hf : ([t1] ++ [t2]).filter (fun x => decide (t2 - 300 ≤ x)) = [t1, t2] := by
      simp
      linarith
    rw [hf]
    norm_num [dictSet]
  have e3 : (⟨defaultAlertThresholds, [(("auth_failure", identifier), [t1, t2])]⟩ :
      SecurityEventMonitor).checkAlert t3 "auth_failure" identifier
      = (false, ⟨defaultAlertThresholds, [(("auth_failure", identifier), [t1, t2, t3])]⟩) := by
    rw [checkAlert_eval _ t3 "auth_failure" identifier 5 300 [t1, t2]
      (by simp [defaultAlertThresholds, dictGet]) (by simp [dictGet])]
    have hf : ([t1, t2] ++ [t3]).filter (fun x => decide (t3 - 300 ≤ x)) = [t1, t2, t3] := by
      simp
      exact ⟨by linarith, by linarith⟩
    rw [hf]
    norm_num [dictSet]
  have e4 : (⟨defaultAlertThresholds, [(("auth_failure", identifier), [t1, t2, t3])]⟩ :
      SecurityEventMonitor).checkAlert t4 "auth_failure" identifier
      = (false, ⟨defaultAlertThresholds,
          [(("auth_failure", identifier), [t1, t2, t3, t4])]⟩) := by
    rw [checkAlert_eval _ t4 "auth_failure" identifier 5 300 [t1, t2, t3]
      (by simp [defaultAlertThresholds, dictGet]) (by simp [dictGet])]
    have hf : ([t1, t2, t3] ++ [t4]).filter (fun x => decide (t4 - 300 ≤ x))
        = [t1, t2, t3, t4] := by
      simp
      exact ⟨by linarith, by linarith, by linarith⟩
    rw [hf]
    norm_num [dictSet]
  have e5 : (⟨defaultAlertThresholds, [(("auth_failure", identifier), [t1, t2, t3, t4])]⟩ :
      SecurityEventMonitor).checkAlert t5 "auth_failure" identifier
      = (true, ⟨defaultAlertThresholds,
          [(("auth_failure", identifier), [t1, t2, t3, t4, t5])]⟩) := by
    rw [checkAlert_eval _ t5 "auth_failure" identifier 5 300 [t1, t2, t3, t4]
      (by simp [defaultAlertThresholds, dictGet]) (by simp [dictGet])]
    have hf : ([t1, t2, t3, t4] ++ [t5]).filter (fun x => decide (t5 - 300 ≤ x))
        = [t1, t2, t3, t4, t5] := by
      simp
      exact ⟨by linarith, by linarith, by linarith, by linarith⟩
    rw [hf]
    norm_num [dictSet]
  refine ⟨?_, ?_, ?_⟩
  · simp [SecurityEventMonitor.processSeq, e1, e2, e3, e4, e5]
  · simp [SecurityEventMonitor.processSeq, e1, e2, e3, e4]
  · intro ts hchain
    exact monitor_sparse_aux identifier ts ⟨defaultAlertThresholds, []⟩
      (by simp [defaultAlertThresholds, dictGet]) (by simp [dictGet]) hchain

/-- Witness for C5: identifier `"ip"`, events at 0, 60, 120, 180, 240. -/
theorem securityMonitor_threshold_alerts_witness :
    (SecurityEventMonitor.processSeq "auth_failure" "ip"
        ⟨defaultAlertThresholds, []⟩ [0, 60, 120, 180, 240]).1 = 1
    ∧ (SecurityEventMonitor.processSeq "auth_failure" "ip"
        ⟨defaultAlertThresholds, []⟩ [0, 60, 120, 180]).1 = 0
    ∧ (SecurityEventMonitor.processSeq "auth_failure" "ip"
        ⟨defaultAlertThresholds, []⟩ [0, 301, 700]).1 = 0 := by
  have h := securityMonitor_threshold_alerts "ip" 0 60 120 180 240 (by norm_num)
    (by norm_num) (by norm_num) (by norm_num) (by norm_num)
  refine ⟨h.1, h.2.1, ?_⟩
  refine h.2.2 [0, 301, 700] ?_
  refine List.chain'_cons.mpr ⟨by norm_num, ?_⟩
  refine List.chain'_cons.mpr ⟨by norm_num, ?_⟩
  exact List.chain'_singleton 700
